import Mathlib

/-!
Verification of the `simplemad` decode driver (src/simplemad/src/lib.rs).

The crate drives the external libmad codec engine: it owns a 32768-byte
buffer refilled from a byte source, asks the engine to decode headers or
full frames, classifies engine errors as recoverable or fatal, seeks to an
optional start bound by header-only decoding, stops past an optional end
bound, and accumulates a running stream position.

Modelling choices:
* The codec engine (libmad, crate `simplemad-sys`) is an external
  collaborator; its behaviour is modelled as an oracle, a function from the
  index of the decode call to the engine response (error code, decoded
  header, synthesized PCM block, new stream cursor).  Engine state that the
  driver reads (`stream.error`, `stream.next_frame`, `frame.header`,
  `synth.pcm`) is explicit in the decoder state.
* The byte source (`std::io::Read`) is a list of read events: each `read`
  call consumes one event, which is either an I/O error or a chunk of bytes
  (truncated to the slice length); an exhausted list reads 0 bytes.
* Times: the source stores milliseconds in `f64`/`f32`.  The model uses
  exact integers in units of 1/352800 ms (the resolution of libmad's
  timer), so `frame_duration` and all position accounting are exact; this
  abstracts IEEE rounding but keeps ordering and accumulation faithful.
* Machine integers in `to_i16` are modelled as `Int` with explicit wrapping
  at 2^32 where Rust release-mode `i32` addition would wrap.
* `get_frame`/`seek_to_start` recurse through the refill-and-retry loop and
  the seek loop; the model indexes them by fuel and returns `none` when the
  fuel runs out, so every theorem speaks about terminating executions.
-/

/-- Modelled from the spec: the codec engine's numeric error codes (the
engine is the external `simplemad-sys`/libmad collaborator; the spec
describes "a numeric code where a specific bit-range distinguishes
informational/recoverable from fatal codes, plus a distinguished buffer
exhausted code").  Constructor names and numeric values follow libmad's
`MAD_ERROR_*` convention. -/
inductive MadError where
  | none | bufLen | bufPtr | noMem
  | lostSync | badLayer | badBitRate | badSampleRate | badEmphasis
  | badCRC | badBitAlloc | badScaleFactor | badMode | badFrameLen
  | badBigValues | badBlockType | badScFSI | badDataPtr | badPart3Len
  | badHuffTable | badHuffData | badStereo
deriving DecidableEq

/-- Modelled from the spec: the numeric value of each engine error code
(the `as u16` cast in the source), libmad convention. -/
def MadError.toU16 : MadError → Nat
  | .none => 0x0000
  | .bufLen => 0x0001
  | .bufPtr => 0x0002
  | .noMem => 0x0031
  | .lostSync => 0x0101
  | .badLayer => 0x0102
  | .badBitRate => 0x0103
  | .badSampleRate => 0x0104
  | .badEmphasis => 0x0105
  | .badCRC => 0x0201
  | .badBitAlloc => 0x0211
  | .badScaleFactor => 0x0221
  | .badMode => 0x0222
  | .badFrameLen => 0x0231
  | .badBigValues => 0x0232
  | .badBlockType => 0x0233
  | .badScFSI => 0x0234
  | .badDataPtr => 0x0235
  | .badPart3Len => 0x0236
  | .badHuffTable => 0x0237
  | .badHuffData => 0x0238
  | .badStereo => 0x0239

/-- Source `fn error_is_recoverable(err: &MadError) -> bool`:
`err == &MadError::None || (err.clone() as u16) & 0xff00 != 0`. -/
def error_is_recoverable (err : MadError) : Bool :=
  err == MadError.none || (err.toU16 &&& 0xff00) != 0

/-- Audio layer (`MadLayer` of the sys crate; one of the three MPEG layers). -/
inductive MadLayer where
  | layerI | layerII | layerIII
deriving DecidableEq

/-- Channel mode (`MadMode` of the sys crate). -/
inductive MadMode where
  | singleChannel | dualChannel | jointStereo | stereo
deriving DecidableEq

/-- The engine's frame timer (`mad_timer_t`: signed seconds, unsigned
fraction in 1/352800 s). -/
structure MadTimer where
  seconds : Int
  fraction : Nat
deriving DecidableEq

/-- Source `fn frame_duration(frame: &MadFrame) -> f64`:
`(seconds as f64) * 1000.0 + (fraction as f64) / 352800.0` milliseconds.
The model scales milliseconds by 352800 so the value is an exact integer:
`seconds * 1000 * 352800 + fraction` ticks, one tick being 1/352800 ms. -/
def frame_duration (t : MadTimer) : Int :=
  t.seconds * 352800000 + (t.fraction : Int)

/-- Decoded frame header fields the driver reads (`frame.header`). -/
structure MadHeader where
  sampleRate : Nat
  bitRate : Nat
  layer : MadLayer
  mode : MadMode
  duration : MadTimer
deriving DecidableEq

/-- Synthesized PCM block (`synth.pcm`): sample rate, channel count, samples
per channel, and the raw fixed-point samples. -/
structure MadPcm where
  sampleRate : Nat
  channels : Nat
  length : Nat
  samples : List (List Int)
deriving DecidableEq

/-- The engine's stream state as seen by the driver: the recorded error,
the offset of `next_frame` from the registered buffer front (the source
computes `(stream.next_frame - stream.buffer) as usize`), and the
registered valid length (set by `mad_stream_buffer`). -/
structure MadStream where
  error : MadError
  nextFrame : Nat
  bufLength : Nat
deriving DecidableEq

/-- Source `pub struct Frame`.  `samples` holds the raw `MadFixed32`
values; `duration` and `position` are in ticks (1/352800 ms). -/
structure Frame where
  sample_rate : Nat
  bit_rate : Nat
  layer : MadLayer
  mode : MadMode
  samples : List (List Int)
  duration : Int
  position : Int
deriving DecidableEq

/-- Opaque token for a `std::io::Error` produced by the byte source. -/
abbrev IOError := Nat

/-- Source `pub enum SimplemadError`. -/
inductive SimplemadError where
  | Read (e : IOError)
  | Mad (e : MadError)
  | EOF
deriving DecidableEq

instance {α β : Type} [DecidableEq α] [DecidableEq β] : DecidableEq (Except α β) :=
  fun a b =>
  match a, b with
  | .ok x, .ok y => decidable_of_iff (x = y) ⟨fun h => by rw [h], fun h => by cases h; rfl⟩
  | .error x, .error y => decidable_of_iff (x = y) ⟨fun h => by rw [h], fun h => by cases h; rfl⟩
  | .ok _, .error _ => isFalse (fun h => by cases h)
  | .error _, .ok _ => isFalse (fun h => by cases h)

/-- One response of the codec engine to a decode call (`mad_header_decode`
or `mad_frame_decode` followed by `mad_synth_frame`): the stream error it
records, the header it writes into the frame scratch, the new
`next_frame` offset, and the PCM block synthesis would produce. -/
structure EngineResp where
  error : MadError
  header : MadHeader
  nextFrame : Nat
  pcm : MadPcm

/-- Modelled from the spec: the codec engine as an external collaborator.
The oracle gives the engine's response to the n-th decode call of the
session. -/
def EngineOracle := Nat → EngineResp

/-- One event of the byte source: a `read` call either fails or yields a
chunk of bytes (clipped to the requested slice length). -/
abbrev ReadEvent := Except IOError (List UInt8)

/-- Source `pub struct Decoder<R>` together with the engine-owned scratch
state the driver reads, the engine oracle with its call counter, and a
ghost trace `consumed` of the durations of all frames consumed so far
(used only to state the position invariant; no source field corresponds
to it and no model code reads it). -/
structure DecoderS where
  reader : List ReadEvent
  buffer : List UInt8
  headers_only : Bool
  stream : MadStream
  frameHeader : MadHeader
  pcm : MadPcm
  start_ms : Option Int
  end_ms : Option Int
  position_ms : Int
  engine : EngineOracle
  engineIdx : Nat
  consumed : List Int

/-- Source `refill_buffer`, line
`let unused_byte_count = buffer_len - min(next_frame_position, buffer_len);`. -/
def unused_byte_count (buffer_len next_frame_position : Nat) : Nat :=
  buffer_len - min next_frame_position buffer_len

/-- The byte-shifting loop of `refill_buffer`:
`for idx in 0..unused_byte_count { buffer[idx] = buffer[idx + next_frame_position]; }`,
with `remaining` counting the iterations still to run, so that
`shiftLoop buf nfp 0 unused` runs the loop for `idx = 0, …, unused - 1`.
Out-of-range reads yield 0 here; the bounds theorem shows they never
happen. -/
def shiftLoop (buf : List UInt8) (nfp idx : Nat) : Nat → List UInt8
  | 0 => buf
  | remaining + 1 =>
    shiftLoop (buf.set idx (buf.getD (idx + nfp) 0)) nfp (idx + 1) remaining

/-- Writing a chunk returned by `reader.read` into the buffer starting at
a given index (the slice `&mut self.buffer[free_region_start..buffer_len]`). -/
def writeBytes : List UInt8 → Nat → List UInt8 → List UInt8
  | buf, _, [] => buf
  | buf, i, b :: bs => writeBytes (buf.set i b) (i + 1) bs

/-- The refill loop of `refill_buffer`:
`while free_region_start != buffer_len { match self.reader.read(slice) { Err(e) => return Err(e), Ok(0) => break, Ok(n) => free_region_start += n } }`.
Returns the final `free_region_start` (or the I/O error), the buffer, and
the remaining read events.  An exhausted event list models a source that
reads 0 bytes. -/
def fillLoop : List ReadEvent → List UInt8 → Nat → Nat →
    (Except IOError Nat) × List UInt8 × List ReadEvent
  | [], buf, start, _ => (.ok start, buf, [])
  | ev :: rest, buf, start, buffer_len =>
    if start = buffer_len then (.ok start, buf, ev :: rest)
    else
      match ev with
      | .error e => (.error e, buf, rest)
      | .ok chunk =>
        if min chunk.length (buffer_len - start) = 0 then (.ok start, buf, rest)
        else
          fillLoop rest
            (writeBytes buf start (chunk.take (min chunk.length (buffer_len - start))))
            (start + min chunk.length (buffer_len - start)) buffer_len

/-- Source `fn refill_buffer(&mut self) -> Result<usize, io::Error>`:
shift the unconsumed tail to the front, fill the free region from the
reader, re-register the buffer with `mad_stream_buffer` (front pointer,
so `next_frame` offset 0, and valid length), suppress a recorded `BufLen`
error, and return the count of newly read bytes.  An I/O error aborts
before re-registering, keeping the partially filled buffer. -/
def refill_buffer (d : DecoderS) : (Except IOError Nat) × DecoderS :=
  let buffer_len := d.buffer.length
  let next_frame_position := d.stream.nextFrame
  let unused := unused_byte_count buffer_len next_frame_position
  let buf1 := shiftLoop d.buffer next_frame_position 0 unused
  match fillLoop d.reader buf1 unused buffer_len with
  | (.error e, buf2, rdr') => (.error e, { d with buffer := buf2, reader := rdr' })
  | (.ok fstart, buf2, rdr') =>
    let stream1 : MadStream := { d.stream with nextFrame := 0, bufLength := fstart }
    let stream2 : MadStream :=
      if stream1.error = MadError.bufLen then { stream1 with error := MadError.none }
      else stream1
    (.ok (fstart - unused), { d with buffer := buf2, reader := rdr', stream := stream2 })

/-- Clearing the engine's recorded error (`self.stream.error = MadError::None`). -/
def clearStreamError (d : DecoderS) : DecoderS :=
  { d with stream := { d.stream with error := MadError.none } }

/-- One engine decode call (`mad_header_decode` / `mad_frame_decode`): the
oracle response becomes the recorded stream error, the new `next_frame`
offset, and the frame scratch header; the call counter advances. -/
def engineStep (d : DecoderS) : EngineResp × DecoderS :=
  (d.engine d.engineIdx,
   { d with
       stream := { d.stream with
                     error := (d.engine d.engineIdx).error
                     nextFrame := (d.engine d.engineIdx).nextFrame }
       frameHeader := (d.engine d.engineIdx).header
       engineIdx := d.engineIdx + 1 })

/-- The header-only `Frame` built on success of `decode_header_only`
(empty samples, metadata from `self.frame.header`). -/
def mkHeaderFrame (d : DecoderS) : Frame :=
  { sample_rate := d.frameHeader.sampleRate
    mode := d.frameHeader.mode
    layer := d.frameHeader.layer
    bit_rate := d.frameHeader.bitRate
    samples := []
    duration := frame_duration d.frameHeader.duration
    position := d.position_ms }

/-- Branching of `decode_header_only` after the engine call: success if the
recorded error is `None`; a recoverable error is cleared on the stream but
still returned; a fatal error is returned with the stream error kept. -/
def headerOutcome (d1 : DecoderS) : (Except SimplemadError Frame) × DecoderS :=
  if d1.stream.error = MadError.none then (.ok (mkHeaderFrame d1), d1)
  else if error_is_recoverable d1.stream.error then
    (.error (.Mad d1.stream.error), clearStreamError d1)
  else (.error (.Mad d1.stream.error), d1)

/-- Source `fn decode_header_only`. -/
def decode_header_only (d : DecoderS) : (Except SimplemadError Frame) × DecoderS :=
  headerOutcome (engineStep d).2

/-- Source `impl From<i32> for MadFixed32 { value: v / 8 }` (Rust `i32`
division truncates toward zero, as does `Int.div`). -/
def madFixed32_from_i32 (v : Int) : Int :=
  Int.tdiv v 8

/-- The sample matrix of `decode_frame`: channel-major, `pcm.length`
samples per channel, each converted by `MadFixed32::from`. -/
def buildSamples (p : MadPcm) : List (List Int) :=
  (List.range p.channels).map fun ch =>
    (List.range p.length).map fun i =>
      madFixed32_from_i32 ((p.samples.getD ch []).getD i 0)

/-- The full `Frame` built on success of `decode_frame` (sample rate from
the PCM block, the rest from `self.frame.header`). -/
def mkFullFrame (d : DecoderS) : Frame :=
  { sample_rate := d.pcm.sampleRate
    duration := frame_duration d.frameHeader.duration
    mode := d.frameHeader.mode
    layer := d.frameHeader.layer
    bit_rate := d.frameHeader.bitRate
    position := d.position_ms
    samples := buildSamples d.pcm }

/-- Branching of `decode_frame` after `mad_frame_decode`: return the
recorded error if any; otherwise `mad_synth_frame` fills `synth.pcm` (it
touches neither the stream nor its error), the error is re-checked as in
the source, and the frame is built. -/
def frameOutcome (resp : EngineResp) (d1 : DecoderS) :
    (Except SimplemadError Frame) × DecoderS :=
  if d1.stream.error ≠ MadError.none then (.error (.Mad d1.stream.error), d1)
  else
    let d2 := { d1 with pcm := resp.pcm }
    if d2.stream.error ≠ MadError.none then (.error (.Mad d2.stream.error), d2)
    else (.ok (mkFullFrame d2), d2)

/-- Source `fn decode_frame`. -/
def decode_frame (d : DecoderS) : (Except SimplemadError Frame) × DecoderS :=
  frameOutcome (engineStep d).1 (engineStep d).2

/-- The decode attempt of `get_frame`:
`if self.headers_only { self.decode_header_only() } else { self.decode_frame() }`. -/
def decodeAttempt (d : DecoderS) : (Except SimplemadError Frame) × DecoderS :=
  if d.headers_only then decode_header_only d else decode_frame d

/-- The first guard of `get_frame`:
`match self.start_ms { Some(t) if self.position_ms < t => return self.seek_to_start(), _ => {} }`. -/
def startSeekNeeded (d : DecoderS) : Bool :=
  match d.start_ms with
  | some t => decide (d.position_ms < t)
  | Option.none => false

/-- The second guard of `get_frame`:
`match self.end_ms { Some(t) if self.position_ms > t => return Err(SimplemadError::EOF), _ => {} }`. -/
def endReached (d : DecoderS) : Bool :=
  match d.end_ms with
  | some t => decide (t < d.position_ms)
  | Option.none => false

mutual

/-- Source `pub fn get_frame(&mut self) -> Result<Frame, SimplemadError>`,
indexed by fuel; `none` means the fuel ran out before the call returned. -/
def get_frame : Nat → DecoderS → Option ((Except SimplemadError Frame) × DecoderS)
  | 0, _ => Option.none
  | fuel + 1, d =>
    if startSeekNeeded d then seek_to_start fuel d
    else if endReached d then some (.error .EOF, d)
    else
      match decodeAttempt d with
      | (.ok f, d1) =>
        some (.ok f,
              { d1 with
                  position_ms := d1.position_ms + frame_duration d1.frameHeader.duration
                  consumed := d1.consumed ++ [frame_duration d1.frameHeader.duration] })
      | (.error (.Mad e), d1) =>
        if e = MadError.bufLen then
          match refill_buffer (clearStreamError d1) with
          | (.error ioe, d3) => some (.error (.Read ioe), d3)
          | (.ok 0, d3) => some (.error .EOF, d3)
          | (.ok _, d3) => get_frame fuel d3
        else
          some (.error (.Mad e),
                if error_is_recoverable e then clearStreamError d1 else d1)
      | (.error (.Read ioe), d1) => some (.error (.Read ioe), d1)
      | (.error .EOF, d1) => some (.error .EOF, d1)

/-- Source `fn seek_to_start(&mut self) -> Result<Frame, SimplemadError>`:
while the position is below the start bound, decode headers only
(advancing the position by each frame's duration and refilling on
`BufLen`), then fall through to `get_frame`. -/
def seek_to_start : Nat → DecoderS → Option ((Except SimplemadError Frame) × DecoderS)
  | 0, _ => Option.none
  | fuel + 1, d =>
    match d.start_ms with
    | Option.none => get_frame fuel d
    | some start_time =>
      if d.position_ms < start_time then
        match decode_header_only d with
        | (.ok f, d1) =>
          seek_to_start fuel
            { d1 with
                position_ms := d1.position_ms + f.duration
                consumed := d1.consumed ++ [f.duration] }
        | (.error (.Mad MadError.bufLen), d1) =>
          match refill_buffer d1 with
          | (.ok 0, d2) => some (.error .EOF, d2)
          | (.error ioe, d2) => some (.error (.Read ioe), d2)
          | (.ok _, d2) => seek_to_start fuel d2
        | (.error e, d1) => some (.error e, d1)
      else get_frame fuel d

end

/-- Source `impl Iterator for Decoder`, `fn next`: `None` once the
recorded stream error is not recoverable, `None` on `EOF`, otherwise the
`get_frame` result.  The outer `Option` is fuel exhaustion; the inner one
is the iterator's `None`. -/
def iterNext (fuel : Nat) (d : DecoderS) :
    Option (Option (Except SimplemadError Frame) × DecoderS) :=
  if error_is_recoverable d.stream.error = false then some (Option.none, d)
  else
    match get_frame fuel d with
    | Option.none => Option.none
    | some (.ok f, d') => some (some (.ok f), d')
    | some (.error .EOF, d') => some (Option.none, d')
    | some (.error e, d') => some (some (.error e), d')

/-- Source `fn new(reader, start_ms, end_ms, headers_only)`: allocate the
32768-byte buffer, perform one initial `read`, initialize the engine state
(`mad_stream_init` records no error) and register the buffer with the
bytes read. -/
def Decoder_new (reader : List ReadEvent) (start_ms end_ms : Option Int)
    (headers_only : Bool) (engine : EngineOracle) : Except SimplemadError DecoderS :=
  let buffer : List UInt8 := List.replicate 32768 0
  let base : DecoderS :=
    { reader := reader
      buffer := buffer
      headers_only := headers_only
      stream := { error := MadError.none, nextFrame := 0, bufLength := 0 }
      frameHeader :=
        { sampleRate := 0, bitRate := 0, layer := .layerI, mode := .stereo
          duration := { seconds := 0, fraction := 0 } }
      pcm := { sampleRate := 0, channels := 0, length := 0, samples := [] }
      start_ms := start_ms
      end_ms := end_ms
      position_ms := 0
      engine := engine
      engineIdx := 0
      consumed := [] }
  match reader with
  | [] => .ok { base with reader := [] }
  | .error e :: _ => .error (.Read e)
  | .ok chunk :: rest =>
    let n := min chunk.length 32768
    .ok { base with
            reader := rest
            buffer := writeBytes buffer 0 (chunk.take n)
            stream := { error := MadError.none, nextFrame := 0, bufLength := n } }

/-- Source `pub fn decode(reader)`. -/
def Decoder_decode (reader : List ReadEvent) (engine : EngineOracle) :
    Except SimplemadError DecoderS :=
  Decoder_new reader Option.none Option.none false engine

/-- Source `pub fn decode_headers(reader)`. -/
def Decoder_decode_headers (reader : List ReadEvent) (engine : EngineOracle) :
    Except SimplemadError DecoderS :=
  Decoder_new reader Option.none Option.none true engine

/-- Source `pub fn decode_interval(reader, start_time, end_time)` (times in
ticks here). -/
def Decoder_decode_interval (reader : List ReadEvent) (start_time end_time : Int)
    (engine : EngineOracle) : Except SimplemadError DecoderS :=
  Decoder_new reader (some start_time) (some end_time) false engine

/-- Rust release-mode `i32` wrapping into `[-2^31, 2^31)`. -/
def i32wrap (x : Int) : Int :=
  (x + 2 ^ 31) % 2 ^ 32 - 2 ^ 31

/-- Source `pub fn to_i16(&self) -> i16` on the raw fixed-point value:
add `1 << (frac_bits - 16)`, clip to `[-unity_value, unity_value - 1]`,
arithmetic-shift right by `frac_bits + 1 - 16`.  The rounding add is `i32`
addition, which wraps in release builds (and panics in debug builds); the
wrap is explicit here.  The final `as i16` cast is the identity because the
clipped range shifts into `[-2^15, 2^15)`. -/
def to_i16 (value : Int) : Int :=
  let frac_bits : Nat := 28
  let unity_value : Int := 0x10000000
  let rounded_value := i32wrap (value + 2 ^ (frac_bits - 16))
  let clipped_value := max (-unity_value) (min rounded_value (unity_value - 1))
  Int.fdiv clipped_value (2 ^ (frac_bits + 1 - 16))

/-! Helper lemmas about the single-step functions. -/

lemma headerOutcome_pres {d : DecoderS} {res : Except SimplemadError Frame}
    {d1 : DecoderS} (h : headerOutcome d = (res, d1)) :
    d1.position_ms = d.position_ms ∧ d1.consumed = d.consumed ∧
    d1.engine = d.engine ∧ d1.frameHeader = d.frameHeader := by
  unfold headerOutcome at h
  split at h
  · cases h; exact ⟨rfl, rfl, rfl, rfl⟩
  · split at h
    · cases h; exact ⟨rfl, rfl, rfl, rfl⟩
    · cases h; exact ⟨rfl, rfl, rfl, rfl⟩

lemma headerOutcome_ok {d : DecoderS} {f : Frame} {d1 : DecoderS}
    (h : headerOutcome d = (.ok f, d1)) :
    d.stream.error = MadError.none ∧ d1 = d ∧ f = mkHeaderFrame d := by
  unfold headerOutcome at h
  split at h
  next herr => cases h; exact ⟨herr, rfl, rfl⟩
  next herr =>
    split at h
    · simp at h
    · simp at h

lemma headerOutcome_err {d : DecoderS} {se : SimplemadError} {d1 : DecoderS}
    (h : headerOutcome d = (.error se, d1)) :
    se = SimplemadError.Mad d.stream.error ∧ d.stream.error ≠ MadError.none ∧
    ((error_is_recoverable d.stream.error = true ∧ d1 = clearStreamError d) ∨
     (error_is_recoverable d.stream.error = false ∧ d1 = d)) := by
  unfold headerOutcome at h
  split at h
  next herr => simp at h
  next herr =>
    split at h
    next hrec => cases h; exact ⟨rfl, herr, Or.inl ⟨hrec, rfl⟩⟩
    next hrec =>
      cases h
      exact ⟨rfl, herr, Or.inr ⟨by simpa using hrec, rfl⟩⟩

lemma frameOutcome_pres {resp : EngineResp} {d : DecoderS}
    {res : Except SimplemadError Frame} {d1 : DecoderS}
    (h : frameOutcome resp d = (res, d1)) :
    d1.position_ms = d.position_ms ∧ d1.consumed = d.consumed ∧
    d1.engine = d.engine ∧ d1.frameHeader = d.frameHeader ∧
    d1.stream = d.stream := by
  simp only [frameOutcome] at h
  split at h
  · cases h; exact ⟨rfl, rfl, rfl, rfl, rfl⟩
  · cases h; exact ⟨rfl, rfl, rfl, rfl, rfl⟩

lemma frameOutcome_ok {resp : EngineResp} {d : DecoderS} {f : Frame} {d1 : DecoderS}
    (h : frameOutcome resp d = (.ok f, d1)) :
    d.stream.error = MadError.none ∧ d1 = { d with pcm := resp.pcm } ∧
    f = mkFullFrame { d with pcm := resp.pcm } := by
  simp only [frameOutcome] at h
  split at h
  next hne => simp at h
  next hne =>
    cases h
    exact ⟨by simpa using hne, rfl, rfl⟩

lemma frameOutcome_err {resp : EngineResp} {d : DecoderS} {se : SimplemadError}
    {d1 : DecoderS} (h : frameOutcome resp d = (.error se, d1)) :
    se = SimplemadError.Mad d.stream.error ∧ d.stream.error ≠ MadError.none ∧
    d1.stream.error = d.stream.error := by
  simp only [frameOutcome] at h
  split at h
  next hne => cases h; exact ⟨rfl, hne, rfl⟩
  next hne => simp at h

lemma attempt_pres {d : DecoderS} {res : Except SimplemadError Frame} {d1 : DecoderS}
    (h : decodeAttempt d = (res, d1)) :
    d1.position_ms = d.position_ms ∧ d1.consumed = d.consumed ∧ d1.engine = d.engine := by
  unfold decodeAttempt at h
  split at h
  · unfold decode_header_only at h
    obtain ⟨h1, h2, h3, _⟩ := headerOutcome_pres h
    exact ⟨h1, h2, h3⟩
  · unfold decode_frame at h
    obtain ⟨h1, h2, h3, _, _⟩ := frameOutcome_pres h
    exact ⟨h1, h2, h3⟩

lemma attempt_ok {d : DecoderS} {f : Frame} {d1 : DecoderS}
    (h : decodeAttempt d = (.ok f, d1)) :
    f.position = d1.position_ms ∧
    f.duration = frame_duration d1.frameHeader.duration ∧
    d1.frameHeader = (d.engine d.engineIdx).header := by
  unfold decodeAttempt at h
  split at h
  · unfold decode_header_only at h
    obtain ⟨herr, hd1, hf⟩ := headerOutcome_ok h
    subst hd1; subst hf
    exact ⟨rfl, rfl, rfl⟩
  · unfold decode_frame at h
    obtain ⟨herr, hd1, hf⟩ := frameOutcome_ok h
    subst hd1; subst hf
    exact ⟨rfl, rfl, rfl⟩

lemma attempt_err {d : DecoderS} {se : SimplemadError} {d1 : DecoderS}
    (h : decodeAttempt d = (.error se, d1)) :
    ∃ e, se = SimplemadError.Mad e ∧
      (error_is_recoverable e = false → d1.stream.error = e) := by
  unfold decodeAttempt at h
  split at h
  · unfold decode_header_only at h
    obtain ⟨hse, _, hcases⟩ := headerOutcome_err h
    refine ⟨_, hse, fun hrec => ?_⟩
    rcases hcases with ⟨htrue, _⟩ | ⟨_, hd1⟩
    · rw [htrue] at hrec; cases hrec
    · rw [hd1]
  · unfold decode_frame at h
    obtain ⟨hse, _, herr⟩ := frameOutcome_err h
    exact ⟨_, hse, fun _ => herr⟩

lemma dho_ok {d : DecoderS} {f : Frame} {d1 : DecoderS}
    (h : decode_header_only d = (.ok f, d1)) :
    f.position = d1.position_ms ∧
    f.duration = frame_duration d1.frameHeader.duration ∧
    d1.frameHeader = (d.engine d.engineIdx).header ∧
    d1.position_ms = d.position_ms ∧ d1.consumed = d.consumed ∧
    d1.engine = d.engine := by
  unfold decode_header_only at h
  obtain ⟨herr, hd1, hf⟩ := headerOutcome_ok h
  subst hd1; subst hf
  exact ⟨rfl, rfl, rfl, rfl, rfl, rfl⟩

lemma dho_err {d : DecoderS} {se : SimplemadError} {d1 : DecoderS}
    (h : decode_header_only d = (.error se, d1)) :
    ∃ e, se = SimplemadError.Mad e ∧
      (error_is_recoverable e = true → d1.stream.error = MadError.none) ∧
      (error_is_recoverable e = false → d1.stream.error = e) ∧
      d1.position_ms = d.position_ms ∧ d1.consumed = d.consumed ∧
      d1.engine = d.engine := by
  unfold decode_header_only at h
  obtain ⟨hse, _, hcases⟩ := headerOutcome_err h
  rcases hcases with ⟨htrue, hd1⟩ | ⟨hfalse, hd1⟩
  · subst hd1
    refine ⟨_, hse, fun _ => rfl, fun hrec => ?_, rfl, rfl, rfl⟩
    rw [htrue] at hrec; cases hrec
  · subst hd1
    refine ⟨_, hse, fun hrec => ?_, fun _ => rfl, rfl, rfl, rfl⟩
    rw [hfalse] at hrec; cases hrec

lemma refill_pres {d : DecoderS} {res : Except IOError Nat} {d1 : DecoderS}
    (h : refill_buffer d = (res, d1)) :
    d1.position_ms = d.position_ms ∧ d1.consumed = d.consumed ∧
    d1.engine = d.engine := by
  simp only [refill_buffer] at h
  split at h
  · cases h; exact ⟨rfl, rfl, rfl⟩
  · cases h; exact ⟨rfl, rfl, rfl⟩

/-- Facts about every codec error a terminating `get_frame`/`seek_to_start`
call returns: it is never `BufLen`; after a recoverable error the recorded
stream error is cleared; after a fatal one it still holds that error. -/
lemma err_facts : ∀ fuel : Nat,
    (∀ d r d', get_frame fuel d = some (r, d') → ∀ e,
        r = Except.error (SimplemadError.Mad e) →
        e ≠ MadError.bufLen ∧
        (error_is_recoverable e = true → d'.stream.error = MadError.none) ∧
        (error_is_recoverable e = false → d'.stream.error = e)) ∧
    (∀ d r d', seek_to_start fuel d = some (r, d') → ∀ e,
        r = Except.error (SimplemadError.Mad e) →
        e ≠ MadError.bufLen ∧
        (error_is_recoverable e = true → d'.stream.error = MadError.none) ∧
        (error_is_recoverable e = false → d'.stream.error = e)) := by
  intro fuel
  induction fuel with
  | zero =>
    constructor
    · intro d r d' h; simp [get_frame] at h
    · intro d r d' h; simp [seek_to_start] at h
  | succ n ih =>
    obtain ⟨ihg, ihs⟩ := ih
    constructor
    · intro d r d' hgf e hr
      subst hr
      rw [get_frame] at hgf
      split at hgf
      · exact ihs d _ d' hgf _ rfl
      · split at hgf
        · simp at hgf
        · split at hgf
          next f d1 heq => simp at hgf
          next e' d1 heq =>
            split at hgf
            next hbe =>
              split at hgf
              next ioe d3 hre => simp at hgf
              next d3 hre => simp at hgf
              next k d3 hne0 hre => exact ihg d3 _ d' hgf _ rfl
            next hbe =>
              have h1 : e' = e ∧
                  (if error_is_recoverable e' = true then clearStreamError d1 else d1) = d' := by
                simpa using hgf
              obtain ⟨he, hd'⟩ := h1
              subst he
              refine ⟨hbe, fun hrec => ?_, fun hrec => ?_⟩
              · rw [← hd', if_pos hrec]; rfl
              · rw [← hd', if_neg (by simp [hrec])]
                obtain ⟨e2, hse, himp⟩ := attempt_err heq
                cases hse
                exact himp hrec
          next ioe d1 heq => simp at hgf
          next d1 heq => simp at hgf
    · intro d r d' hsk e hr
      subst hr
      rw [seek_to_start] at hsk
      split at hsk
      · exact ihg d _ d' hsk _ rfl
      next start_time hstart =>
        split at hsk
        · split at hsk
          next f d1 heq => exact ihs _ _ d' hsk _ rfl
          next d1 heq =>
            split at hsk
            next d2 hre => simp at hsk
            next ioe d2 hre => simp at hsk
            next k d2 hre => exact ihs _ _ d' hsk _ rfl
          next _p se1 d1 hnebuf heq =>
            have h1 : se1 = SimplemadError.Mad e ∧ d1 = d' := by simpa using hsk
            obtain ⟨he1, hd⟩ := h1
            subst hd
            subst he1
            obtain ⟨e2, hse, hrecT, hrecF, _, _, _⟩ := dho_err heq
            have he2 : e2 = e := by
              injection hse with hx
              exact hx.symm
            rw [he2] at hrecT hrecF
            refine ⟨fun hcontra => ?_, hrecT, hrecF⟩
            exact hnebuf (by rw [hcontra])
        · exact ihg d _ d' hsk _ rfl






/-- Fields `clearStreamError` leaves untouched. -/
lemma clear_pres (d : DecoderS) :
    (clearStreamError d).position_ms = d.position_ms ∧
    (clearStreamError d).consumed = d.consumed ∧
    (clearStreamError d).engine = d.engine :=
  ⟨rfl, rfl, rfl⟩

/-- Position accounting of every terminating `get_frame`/`seek_to_start`
call: the engine oracle is unchanged; the invariant "position equals the
sum of the consumed durations" is preserved; under a non-negative-duration
oracle the position never decreases; and on success the final position is
the returned frame's position plus its duration. -/
lemma pos_facts : ∀ fuel : Nat,
    (∀ d r d', get_frame fuel d = some (r, d') →
        d'.engine = d.engine ∧
        (d.position_ms = d.consumed.sum → d'.position_ms = d'.consumed.sum) ∧
        ((∀ k, 0 ≤ frame_duration ((d.engine k).header.duration)) →
            d.position_ms ≤ d'.position_ms) ∧
        (∀ f, r = Except.ok f → d'.position_ms = f.position + f.duration)) ∧
    (∀ d r d', seek_to_start fuel d = some (r, d') →
        d'.engine = d.engine ∧
        (d.position_ms = d.consumed.sum → d'.position_ms = d'.consumed.sum) ∧
        ((∀ k, 0 ≤ frame_duration ((d.engine k).header.duration)) →
            d.position_ms ≤ d'.position_ms) ∧
        (∀ f, r = Except.ok f → d'.position_ms = f.position + f.duration)) := by
  intro fuel
  induction fuel with
  | zero =>
    constructor
    · intro d r d' h; simp [get_frame] at h
    · intro d r d' h; simp [seek_to_start] at h
  | succ n ih =>
    obtain ⟨ihg, ihs⟩ := ih
    constructor
    · intro d r d' hgf
      rw [get_frame] at hgf
      split at hgf
      · exact ihs d r d' hgf
      · split at hgf
        · have h1 : Except.error SimplemadError.EOF = r ∧ d = d' := by simpa using hgf
          obtain ⟨hr, hd⟩ := h1
          subst hd
          exact ⟨rfl, fun h => h, fun _ => le_refl _,
                 fun f hf => by rw [hf] at hr; cases hr⟩
        · split at hgf
          next f d1 heq =>
            obtain ⟨hp1, hc1, he1⟩ := attempt_pres heq
            obtain ⟨hfp, hfd, hfh⟩ := attempt_ok heq
            have h1 : Except.ok f = r ∧
                ({ d1 with
                     position_ms := d1.position_ms + frame_duration d1.frameHeader.duration
                     consumed := d1.consumed ++ [frame_duration d1.frameHeader.duration] }
                   : DecoderS) = d' := by
              simpa using hgf
            obtain ⟨hr, hd⟩ := h1
            subst hd
            refine ⟨he1, fun hinv => ?_, fun hnn => ?_, fun f' hf' => ?_⟩
            · show d1.position_ms + frame_duration d1.frameHeader.duration =
                (d1.consumed ++ [frame_duration d1.frameHeader.duration]).sum
              rw [hp1, hc1, hinv]
              simp
            · show d.position_ms ≤ d1.position_ms + frame_duration d1.frameHeader.duration
              have hdur : 0 ≤ frame_duration d1.frameHeader.duration := by
                rw [hfh]
                exact hnn d.engineIdx
              rw [hp1]
              omega
            · have hff : f = f' := by
                have h2 := hr.trans hf'
                injection h2
              show d1.position_ms + frame_duration d1.frameHeader.duration =
                f'.position + f'.duration
              rw [← hff, hfp, hfd]
          next e' d1 heq =>
            split at hgf
            next hbe =>
              split at hgf
              next ioe d3 hre =>
                have h1 : Except.error (SimplemadError.Read ioe) = r ∧ d3 = d' := by
                  simpa using hgf
                obtain ⟨hr, hd⟩ := h1
                subst hd
                obtain ⟨hp1, hc1, he1⟩ := attempt_pres heq
                obtain ⟨hp2, hc2, he2⟩ := refill_pres hre
                have hp : d3.position_ms = d.position_ms := by rw [hp2]; exact hp1
                have hc : d3.consumed = d.consumed := by rw [hc2]; exact hc1
                have he : d3.engine = d.engine := by rw [he2]; exact he1
                exact ⟨he, fun hinv => by rw [hp, hc]; exact hinv,
                       fun _ => le_of_eq hp.symm,
                       fun f hf => by rw [hf] at hr; cases hr⟩
              next d3 hre =>
                have h1 : Except.error SimplemadError.EOF = r ∧ d3 = d' := by
                  simpa using hgf
                obtain ⟨hr, hd⟩ := h1
                subst hd
                obtain ⟨hp1, hc1, he1⟩ := attempt_pres heq
                obtain ⟨hp2, hc2, he2⟩ := refill_pres hre
                have hp : d3.position_ms = d.position_ms := by rw [hp2]; exact hp1
                have hc : d3.consumed = d.consumed := by rw [hc2]; exact hc1
                have he : d3.engine = d.engine := by rw [he2]; exact he1
                exact ⟨he, fun hinv => by rw [hp, hc]; exact hinv,
                       fun _ => le_of_eq hp.symm,
                       fun f hf => by rw [hf] at hr; cases hr⟩
              next k d3 hne0 hre =>
                obtain ⟨hp1, hc1, he1⟩ := attempt_pres heq
                obtain ⟨hp2, hc2, he2⟩ := refill_pres hre
                obtain ⟨ie, iinv, imono, iok⟩ := ihg d3 r d' hgf
                have hpe : d3.position_ms = d.position_ms := by rw [hp2]; exact hp1
                have hce : d3.consumed = d.consumed := by rw [hc2]; exact hc1
                have hee : d3.engine = d.engine := by rw [he2]; exact he1
                refine ⟨by rw [ie, hee],
                        fun hinv => iinv (by rw [hpe, hce]; exact hinv),
                        fun hnn => ?_, iok⟩
                have h2 := imono (by rw [hee]; exact hnn)
                rw [hpe] at h2
                exact h2
            next hbe =>
              have h1 : Except.error (SimplemadError.Mad e') = r ∧
                  (if error_is_recoverable e' = true then clearStreamError d1 else d1) = d' := by
                simpa using hgf
              obtain ⟨hr, hd⟩ := h1
              obtain ⟨hp1, hc1, he1⟩ := attempt_pres heq
              have hp : d'.position_ms = d.position_ms := by
                rw [← hd]
                split
                · exact hp1
                · exact hp1
              have hc : d'.consumed = d.consumed := by
                rw [← hd]
                split
                · exact hc1
                · exact hc1
              have he : d'.engine = d.engine := by
                rw [← hd]
                split
                · exact he1
                · exact he1
              exact ⟨he, fun hinv => by rw [hp, hc]; exact hinv,
                     fun _ => le_of_eq hp.symm,
                     fun f hf => by rw [hf] at hr; cases hr⟩
          next ioe d1 heq =>
            have h1 : Except.error (SimplemadError.Read ioe) = r ∧ d1 = d' := by
              simpa using hgf
            obtain ⟨hr, hd⟩ := h1
            subst hd
            obtain ⟨hp1, hc1, he1⟩ := attempt_pres heq
            exact ⟨he1, fun hinv => by rw [hp1, hc1]; exact hinv,
                   fun _ => le_of_eq hp1.symm,
                   fun f hf => by rw [hf] at hr; cases hr⟩
          next d1 heq =>
            have h1 : Except.error SimplemadError.EOF = r ∧ d1 = d' := by
              simpa using hgf
            obtain ⟨hr, hd⟩ := h1
            subst hd
            obtain ⟨hp1, hc1, he1⟩ := attempt_pres heq
            exact ⟨he1, fun hinv => by rw [hp1, hc1]; exact hinv,
                   fun _ => le_of_eq hp1.symm,
                   fun f hf => by rw [hf] at hr; cases hr⟩
    · intro d r d' hsk
      rw [seek_to_start] at hsk
      split at hsk
      · exact ihg d r d' hsk
      next start_time hstart =>
        split at hsk
        · split at hsk
          next f d1 heq =>
            obtain ⟨hfp, hfd, hfh, hp1, hc1, he1⟩ := dho_ok heq
            obtain ⟨ie, iinv, imono, iok⟩ := ihs _ r d' hsk
            refine ⟨by rw [ie]; exact he1, fun hinv => ?_, fun hnn => ?_, iok⟩
            · refine iinv ?_
              show d1.position_ms + f.duration = (d1.consumed ++ [f.duration]).sum
              rw [hp1, hc1, hinv]
              simp
            · have hnn2 : ∀ k, 0 ≤ frame_duration ((d1.engine k).header.duration) := by
                rw [he1]; exact hnn
              have hdur : 0 ≤ f.duration := by
                rw [hfd, hfh]
                exact hnn d.engineIdx
              have h2 := imono hnn2
              have hstep : d.position_ms ≤ d1.position_ms + f.duration := by
                rw [hp1]; omega
              calc d.position_ms ≤ d1.position_ms + f.duration := hstep
                _ ≤ d'.position_ms := h2
          next d1 heq =>
            obtain ⟨e2, _, _, _, hp1, hc1, he1⟩ := dho_err heq
            split at hsk
            next d2 hre =>
              have h1 : Except.error SimplemadError.EOF = r ∧ d2 = d' := by
                simpa using hsk
              obtain ⟨hr, hd⟩ := h1
              subst hd
              obtain ⟨hp2, hc2, he2⟩ := refill_pres hre
              have hp : d2.position_ms = d.position_ms := by rw [hp2]; exact hp1
              have hc : d2.consumed = d.consumed := by rw [hc2]; exact hc1
              have he : d2.engine = d.engine := by rw [he2]; exact he1
              exact ⟨he, fun hinv => by rw [hp, hc]; exact hinv,
                     fun _ => le_of_eq hp.symm,
                     fun f hf => by rw [hf] at hr; cases hr⟩
            next ioe d2 hre =>
              have h1 : Except.error (SimplemadError.Read ioe) = r ∧ d2 = d' := by
                simpa using hsk
              obtain ⟨hr, hd⟩ := h1
              subst hd
              obtain ⟨hp2, hc2, he2⟩ := refill_pres hre
              have hp : d2.position_ms = d.position_ms := by rw [hp2]; exact hp1
              have hc : d2.consumed = d.consumed := by rw [hc2]; exact hc1
              have he : d2.engine = d.engine := by rw [he2]; exact he1
              exact ⟨he, fun hinv => by rw [hp, hc]; exact hinv,
                     fun _ => le_of_eq hp.symm,
                     fun f hf => by rw [hf] at hr; cases hr⟩
            next k d2 hne0 hre =>
              obtain ⟨hp2, hc2, he2⟩ := refill_pres hre
              obtain ⟨ie, iinv, imono, iok⟩ := ihs d2 r d' hsk
              have hpe : d2.position_ms = d.position_ms := by rw [hp2]; exact hp1
              have hce : d2.consumed = d.consumed := by rw [hc2]; exact hc1
              have hee : d2.engine = d.engine := by rw [he2]; exact he1
              refine ⟨by rw [ie, hee],
                      fun hinv => iinv (by rw [hpe, hce]; exact hinv),
                      fun hnn => ?_, iok⟩
              have h2 := imono (by rw [hee]; exact hnn)
              rw [hpe] at h2
              exact h2
          next _p se1 d1 hnebuf heq =>
            have h1 : Except.error se1 = r ∧ d1 = d' := by simpa using hsk
            obtain ⟨hr, hd⟩ := h1
            subst hd
            obtain ⟨e2, _, _, _, hp1, hc1, he1⟩ := dho_err heq
            exact ⟨he1, fun hinv => by rw [hp1, hc1]; exact hinv,
                   fun _ => le_of_eq hp1.symm,
                   fun f hf => by rw [hf] at hr; cases hr⟩
        · exact ihg d r d' hsk

/-! Helper lemmas about the buffer operations. -/

lemma getD_set_ne (l : List UInt8) (i j : Nat) (v : UInt8) (h : i ≠ j) :
    (l.set i v).getD j 0 = l.getD j 0 := by
  rw [List.getD_eq_getD_get?, List.getD_eq_getD_get?, List.get?_eq_getElem?,
      List.get?_eq_getElem?, List.getElem?_set_ne h]

lemma getD_set_self (l : List UInt8) (i : Nat) (v : UInt8) (h : i < l.length) :
    (l.set i v).getD i 0 = v := by
  rw [List.getD_eq_getD_get?, List.get?_eq_getElem?, List.getElem?_set_eq_of_lt v h]
  rfl

lemma shiftLoop_length (nfp : Nat) :
    ∀ (rem : Nat) (buf : List UInt8) (idx : Nat),
      (shiftLoop buf nfp idx rem).length = buf.length := by
  intro rem
  induction rem with
  | zero => intro buf idx; rfl
  | succ m ih =>
    intro buf idx
    rw [shiftLoop, ih]
    simp

lemma shiftLoop_getD_below (nfp : Nat) :
    ∀ (rem : Nat) (buf : List UInt8) (idx j : Nat), j < idx →
      (shiftLoop buf nfp idx rem).getD j 0 = buf.getD j 0 := by
  intro rem
  induction rem with
  | zero => intro buf idx j _; rfl
  | succ m ih =>
    intro buf idx j hj
    rw [shiftLoop, ih _ _ _ (Nat.lt_succ_of_lt hj),
        getD_set_ne _ _ _ _ (Nat.ne_of_gt hj)]

lemma shiftLoop_getD_main (nfp : Nat) :
    ∀ (rem : Nat) (buf : List UInt8) (idx j : Nat),
      idx ≤ j → j < idx + rem → j < buf.length →
      (shiftLoop buf nfp idx rem).getD j 0 = buf.getD (j + nfp) 0 := by
  intro rem
  induction rem with
  | zero => intro buf idx j h1 h2 _; omega
  | succ m ih =>
    intro buf idx j h1 h2 hlen
    rw [shiftLoop]
    rcases Nat.eq_or_lt_of_le h1 with heq | hlt
    · subst heq
      rw [shiftLoop_getD_below nfp m _ _ _ (Nat.lt_succ_self idx),
          getD_set_self _ _ _ hlen]
    · rw [ih _ _ _ hlt (by omega) (by simpa using hlen),
          getD_set_ne _ _ _ _ (by omega)]

lemma writeBytes_length :
    ∀ (bs : List UInt8) (buf : List UInt8) (i : Nat),
      (writeBytes buf i bs).length = buf.length := by
  intro bs
  induction bs with
  | nil => intro buf i; rfl
  | cons b rest ih =>
    intro buf i
    rw [writeBytes, ih]
    simp

lemma writeBytes_getD_lt :
    ∀ (bs : List UInt8) (buf : List UInt8) (i j : Nat), j < i →
      (writeBytes buf i bs).getD j 0 = buf.getD j 0 := by
  intro bs
  induction bs with
  | nil => intro buf i j _; rfl
  | cons b rest ih =>
    intro buf i j hj
    rw [writeBytes, ih _ _ _ (Nat.lt_succ_of_lt hj),
        getD_set_ne _ _ _ _ (Nat.ne_of_gt hj)]

lemma fillLoop_nil (buf : List UInt8) (start buffer_len : Nat) :
    fillLoop [] buf start buffer_len = (.ok start, buf, []) := rfl

lemma fillLoop_ok_spec :
    ∀ (rdr : List ReadEvent) (buf : List UInt8) (start buffer_len fstart : Nat)
      (buf2 : List UInt8) (rdr' : List ReadEvent),
      fillLoop rdr buf start buffer_len = (.ok fstart, buf2, rdr') →
      start ≤ fstart ∧ (start ≤ buffer_len → fstart ≤ buffer_len) ∧
      buf2.length = buf.length ∧
      (∀ j, j < start → buf2.getD j 0 = buf.getD j 0) := by
  intro rdr
  induction rdr with
  | nil =>
    intro buf start buffer_len fstart buf2 rdr' h
    rw [fillLoop_nil] at h
    obtain ⟨h1, h2, _⟩ : (Except.ok start : Except IOError Nat) = Except.ok fstart ∧
        buf = buf2 ∧ ([] : List ReadEvent) = rdr' := by simpa using h
    obtain rfl : start = fstart := by injection h1
    subst h2
    exact ⟨le_refl _, fun h => h, rfl, fun j _ => rfl⟩
  | cons ev rest ih =>
    intro buf start buffer_len fstart buf2 rdr' h
    by_cases hs : start = buffer_len
    · simp only [fillLoop] at h
      rw [if_pos hs] at h
      simp only [Prod.mk.injEq] at h
      obtain ⟨h1, h2, h3⟩ := h
      injection h1 with h1
      subst h1
      subst h2
      exact ⟨le_refl _, fun h => h, rfl, fun j _ => rfl⟩
    · cases ev with
      | error e =>
        simp only [fillLoop] at h
        rw [if_neg hs] at h
        replace h : ((Except.error e : Except IOError Nat), buf, rest) =
            (Except.ok fstart, buf2, rdr') := h
        simp at h
      | ok chunk =>
        simp only [fillLoop] at h
        rw [if_neg hs] at h
        replace h : (if min chunk.length (buffer_len - start) = 0 then
              ((Except.ok start : Except IOError Nat), buf, rest)
            else
              fillLoop rest
                (writeBytes buf start (chunk.take (min chunk.length (buffer_len - start))))
                (start + min chunk.length (buffer_len - start)) buffer_len) =
            (Except.ok fstart, buf2, rdr') := h
        by_cases hz : min chunk.length (buffer_len - start) = 0
        · rw [if_pos hz] at h
          simp only [Prod.mk.injEq] at h
          obtain ⟨h1, h2, h3⟩ := h
          injection h1 with h1
          subst h1
          subst h2
          exact ⟨le_refl _, fun h => h, rfl, fun j _ => rfl⟩
        · rw [if_neg hz] at h
          obtain ⟨ih1, ih2, ih3, ih4⟩ := ih _ _ _ _ _ _ h
          have hn : min chunk.length (buffer_len - start) ≤ buffer_len - start :=
            Nat.min_le_right _ _
          have hsle : start + min chunk.length (buffer_len - start) ≤ buffer_len := by
            omega
          refine ⟨by omega, fun _ => ih2 hsle, ?_, fun j hj => ?_⟩
          · rw [ih3, writeBytes_length]
          · rw [ih4 j (by omega), writeBytes_getD_lt _ _ _ _ hj]

lemma headerOutcome_bounds {d : DecoderS} {res : Except SimplemadError Frame}
    {d1 : DecoderS} (h : headerOutcome d = (res, d1)) :
    d1.start_ms = d.start_ms ∧ d1.end_ms = d.end_ms := by
  unfold headerOutcome at h
  split at h
  · cases h; exact ⟨rfl, rfl⟩
  · split at h
    · cases h; exact ⟨rfl, rfl⟩
    · cases h; exact ⟨rfl, rfl⟩

lemma frameOutcome_bounds {resp : EngineResp} {d : DecoderS}
    {res : Except SimplemadError Frame} {d1 : DecoderS}
    (h : frameOutcome resp d = (res, d1)) :
    d1.start_ms = d.start_ms ∧ d1.end_ms = d.end_ms := by
  simp only [frameOutcome] at h
  split at h
  · cases h; exact ⟨rfl, rfl⟩
  · cases h; exact ⟨rfl, rfl⟩

lemma attempt_bounds {d : DecoderS} {res : Except SimplemadError Frame} {d1 : DecoderS}
    (h : decodeAttempt d = (res, d1)) :
    d1.start_ms = d.start_ms ∧ d1.end_ms = d.end_ms := by
  unfold decodeAttempt at h
  split at h
  · unfold decode_header_only at h
    have h2 := headerOutcome_bounds h
    exact ⟨h2.1, h2.2⟩
  · unfold decode_frame at h
    have h2 := frameOutcome_bounds h
    exact ⟨h2.1, h2.2⟩

lemma dho_bounds {d : DecoderS} {res : Except SimplemadError Frame} {d1 : DecoderS}
    (h : decode_header_only d = (res, d1)) :
    d1.start_ms = d.start_ms ∧ d1.end_ms = d.end_ms := by
  unfold decode_header_only at h
  have h2 := headerOutcome_bounds h
  exact ⟨h2.1, h2.2⟩

lemma refill_bounds {d : DecoderS} {res : Except IOError Nat} {d1 : DecoderS}
    (h : refill_buffer d = (res, d1)) :
    d1.start_ms = d.start_ms ∧ d1.end_ms = d.end_ms := by
  simp only [refill_buffer] at h
  split at h
  · cases h; exact ⟨rfl, rfl⟩
  · cases h; exact ⟨rfl, rfl⟩

/-- When start and end bound coincide, any Frame a terminating call returns
was produced with the position exactly equal to that bound: the end check
is strict (`position > end`), so a seek that lands exactly on the bound
falls through to a successful decode. -/
lemma startEnd_eq_ok_position : ∀ fuel : Nat,
    (∀ d t r d', d.start_ms = some t → d.end_ms = some t →
        get_frame fuel d = some (r, d') →
        ∀ f, r = Except.ok f → f.position = t) ∧
    (∀ d t r d', d.start_ms = some t → d.end_ms = some t →
        seek_to_start fuel d = some (r, d') →
        ∀ f, r = Except.ok f → f.position = t) := by
  intro fuel
  induction fuel with
  | zero =>
    constructor
    · intro d t r d' _ _ h; simp [get_frame] at h
    · intro d t r d' _ _ h; simp [seek_to_start] at h
  | succ n ih =>
    obtain ⟨ihg, ihs⟩ := ih
    constructor
    · intro d t r d' hst hen hgf f hr
      subst hr
      rw [get_frame] at hgf
      split at hgf
      · exact ihs d t _ d' hst hen hgf f rfl
      next hseek =>
        split at hgf
        next hend => simp at hgf
        next hend =>
          have hpos : d.position_ms = t := by
            have h1 : ¬(d.position_ms < t) := by
              simp only [startSeekNeeded, hst] at hseek
              simpa using hseek
            have h2 : ¬(t < d.position_ms) := by
              simp only [endReached, hen] at hend
              simpa using hend
            omega
          split at hgf
          next f1 d1 heq =>
            obtain ⟨hfp, _, _⟩ := attempt_ok heq
            obtain ⟨hp1, _, _⟩ := attempt_pres heq
            have h45 := hgf
            simp only [Option.some.injEq, Prod.mk.injEq, Except.ok.injEq] at h45
            obtain ⟨h5, _⟩ := h45
            rw [← h5, hfp, hp1, hpos]
          next e1 d1 heq =>
            split at hgf
            next hbe =>
              split at hgf
              next ioe d3 hre => simp at hgf
              next d3 hre => simp at hgf
              next k d3 hne0 hre =>
                obtain ⟨hs1, he1⟩ := attempt_bounds heq
                obtain ⟨hs2, he2⟩ := refill_bounds hre
                refine ihg d3 t _ d' ?_ ?_ hgf f rfl
                · rw [hs2]
                  show d1.start_ms = some t
                  rw [hs1, hst]
                · rw [he2]
                  show d1.end_ms = some t
                  rw [he1, hen]
            next hbe => simp at hgf
          next ioe d1 heq => simp at hgf
          next d1 heq => simp at hgf
    · intro d t r d' hst hen hsk f hr
      subst hr
      rw [seek_to_start] at hsk
      split at hsk
      next hnone => rw [hst] at hnone; cases hnone
      next start_time hsome =>
        split at hsk
        · split at hsk
          next f1 d1 heq =>
            obtain ⟨hs1, he1⟩ := dho_bounds heq
            refine ihs _ t _ d' ?_ ?_ hsk f rfl
            · show d1.start_ms = some t
              rw [hs1, hst]
            · show d1.end_ms = some t
              rw [he1, hen]
          next d1 heq =>
            split at hsk
            next d2 hre => simp at hsk
            next ioe d2 hre => simp at hsk
            next k d2 hne0 hre =>
              obtain ⟨hs1, he1⟩ := dho_bounds heq
              obtain ⟨hs2, he2⟩ := refill_bounds hre
              refine ihs d2 t _ d' ?_ ?_ hsk f rfl
              · rw [hs2, hs1, hst]
              · rw [he2, he1, hen]
          next _p se1 d1 hnebuf heq => simp at hsk
        · exact ihg d t _ d' hst hen hsk f rfl

/-! The claim theorems. -/

/-- C10: for every value of the engine-reported next-unconsumed offset
(including offsets at or beyond the buffer end), the byte-shifting loop of
`refill_buffer` never indexes out of bounds: `unused_byte_count` is the
buffer length minus the offset clamped to the buffer length, so every
access `buffer[idx + next_frame_position]` with `idx < unused_byte_count`
stays within the 32768-byte buffer. -/
theorem c10_shift_in_bounds (next_frame_position idx : Nat)
    (h : idx < unused_byte_count 32768 next_frame_position) :
    idx + next_frame_position < 32768 := by
  unfold unused_byte_count at h
  omega

/-- C7: `error_is_recoverable` returns true exactly when the error is the
no-error code or the high byte of its numeric value (the `as u16` cast,
masked with 0xff00) is nonzero. -/
theorem c7_recoverable_iff (e : MadError) :
    error_is_recoverable e = true ↔
      (e = MadError.none ∨ MadError.toU16 e &&& 0xff00 ≠ 0) := by
  cases e <;> decide

/-- C8 (code-bug evidence): `to_i16` adds half a 16-bit ULP (1 << 12),
clips to `[-2^28, 2^28 - 1]` and arithmetic-shifts right by 13.  The
minimum `i32` value clips to -32768 as the spec claims, but at the maximum
`i32` value the rounding add overflows `i32` (wrapping in release builds,
panicking in debug builds) and the result is -32768, not the claimed
32767; inputs up to `i32::MAX - 4096` still clip correctly to 32767. -/
theorem c8_to_i16_extremes :
    to_i16 (2 ^ 31 - 1) = -32768 ∧
    to_i16 (-(2 ^ 31)) = -32768 ∧
    to_i16 (2 ^ 31 - 1 - 4096) = 32767 ∧
    to_i16 (2 ^ 28) = 32767 ∧
    to_i16 0 = 0 :=
  ⟨by decide, by decide, by decide, by decide, by decide⟩

/-- C4: a successful `refill_buffer` keeps the buffer length, moves the
unconsumed tail (from the clamped `next_frame` offset to the end) to the
front, re-registers the buffer front (offset 0) and the valid length
(unconsumed plus newly read bytes) with the engine, reads only into the
free region, and reports 0 new bytes when the source is exhausted - in
which case the unconsumed bytes are preserved at the front. -/
theorem c4_refill_buffer_spec (d : DecoderS) (n : Nat)
    (h : (refill_buffer d).1 = Except.ok n) :
    ((refill_buffer d).2).buffer.length = d.buffer.length ∧
    (∀ i, i < unused_byte_count d.buffer.length d.stream.nextFrame →
        ((refill_buffer d).2).buffer.getD i 0 =
          d.buffer.getD (i + d.stream.nextFrame) 0) ∧
    ((refill_buffer d).2).stream.nextFrame = 0 ∧
    ((refill_buffer d).2).stream.bufLength =
      unused_byte_count d.buffer.length d.stream.nextFrame + n ∧
    unused_byte_count d.buffer.length d.stream.nextFrame + n ≤ d.buffer.length ∧
    (d.reader = [] → n = 0) := by
  rcases hfl : fillLoop d.reader
      (shiftLoop d.buffer d.stream.nextFrame 0
        (unused_byte_count d.buffer.length d.stream.nextFrame))
      (unused_byte_count d.buffer.length d.stream.nextFrame) d.buffer.length
    with ⟨res, buf2, rdr'⟩
  cases res with
  | error e =>
    have hres : (refill_buffer d).1 = Except.error e := by
      simp only [refill_buffer, hfl]
    rw [hres] at h
    cases h
  | ok fstart =>
    have hule : unused_byte_count d.buffer.length d.stream.nextFrame ≤ d.buffer.length := by
      unfold unused_byte_count
      omega
    have hshlen : (shiftLoop d.buffer d.stream.nextFrame 0
        (unused_byte_count d.buffer.length d.stream.nextFrame)).length = d.buffer.length :=
      shiftLoop_length _ _ _ _
    obtain ⟨hge, hle, hlen2, hpre⟩ := fillLoop_ok_spec _ _ _ _ _ _ _ hfl
    have hfle : fstart ≤ d.buffer.length := hle hule
    have hres : (refill_buffer d).1 = Except.ok
        (fstart - unused_byte_count d.buffer.length d.stream.nextFrame) := by
      simp only [refill_buffer, hfl]
    have hn : n = fstart - unused_byte_count d.buffer.length d.stream.nextFrame := by
      rw [hres] at h
      injection h with h
      exact h.symm
    have hbuf : ((refill_buffer d).2).buffer = buf2 := by
      simp only [refill_buffer, hfl]
    have hnf : ((refill_buffer d).2).stream.nextFrame = 0 := by
      simp only [refill_buffer, hfl]
      split
      · rfl
      · rfl
    have hbl : ((refill_buffer d).2).stream.bufLength = fstart := by
      simp only [refill_buffer, hfl]
      split
      · rfl
      · rfl
    refine ⟨?_, ?_, hnf, ?_, ?_, ?_⟩
    · rw [hbuf, hlen2, hshlen]
    · intro i hi
      rw [hbuf, hpre i hi]
      exact shiftLoop_getD_main _ _ _ _ _ (Nat.zero_le i) (by omega) (by omega)
    · rw [hbl]
      omega
    · omega
    · intro hrd
      rw [hrd, fillLoop_nil] at hfl
      simp only [Prod.mk.injEq] at hfl
      obtain ⟨h1, _, _⟩ := hfl
      injection h1 with h1
      omega

/-- C1: the engine's buffer-exhausted error is never surfaced: no
terminating `get_frame` call returns `Mad BufLen`, and when the decode
attempt reports `BufLen` (and no interval guard intervenes), `get_frame`
clears the recorded error, refills, and then returns `Read` on a source
error, `EOF` when zero new bytes were read, and otherwise retries the
decode. -/
theorem c1_buflen_never_surfaced :
    (∀ fuel d r d', get_frame fuel d = some (r, d') →
        r ≠ Except.error (SimplemadError.Mad MadError.bufLen)) ∧
    (∀ fuel d d1, startSeekNeeded d = false → endReached d = false →
        decodeAttempt d = (Except.error (SimplemadError.Mad MadError.bufLen), d1) →
        (∀ ioe d3, refill_buffer (clearStreamError d1) = (Except.error ioe, d3) →
            get_frame (fuel + 1) d = some (Except.error (SimplemadError.Read ioe), d3)) ∧
        (∀ d3, refill_buffer (clearStreamError d1) = (Except.ok 0, d3) →
            get_frame (fuel + 1) d = some (Except.error SimplemadError.EOF, d3)) ∧
        (∀ m d3, refill_buffer (clearStreamError d1) = (Except.ok (m + 1), d3) →
            get_frame (fuel + 1) d = get_frame fuel d3)) := by
  constructor
  · intro fuel d r d' hgf hcontra
    subst hcontra
    obtain ⟨hne, _, _⟩ := (err_facts fuel).1 d _ d' hgf MadError.bufLen rfl
    exact hne rfl
  · intro fuel d d1 hstart hend hA
    refine ⟨fun ioe d3 hre => ?_, fun d3 hre => ?_, fun m d3 hre => ?_⟩
    · rw [get_frame]
      simp [hstart, hend, hA, hre]
    · rw [get_frame]
      simp [hstart, hend, hA, hre]
    · rw [get_frame]
      simp [hstart, hend, hA, hre]

/-- C2: every codec error other than buffer exhaustion is classified by
`error_is_recoverable` and returned to the caller; a recoverable error is
returned with the engine's recorded error reset to none (so the next call
can proceed) while a fatal error is returned with the recorded error left
in place. -/
theorem c2_error_classification (fuel : Nat) (d : DecoderS) (e : MadError)
    (d1 : DecoderS)
    (hstart : startSeekNeeded d = false) (hend : endReached d = false)
    (hA : decodeAttempt d = (Except.error (SimplemadError.Mad e), d1))
    (hbe : e ≠ MadError.bufLen) :
    get_frame (fuel + 1) d =
      some (Except.error (SimplemadError.Mad e),
            if error_is_recoverable e then clearStreamError d1 else d1) ∧
    (error_is_recoverable e = true →
        (if error_is_recoverable e then clearStreamError d1 else d1).stream.error =
          MadError.none) ∧
    (error_is_recoverable e = false →
        (if error_is_recoverable e then clearStreamError d1 else d1).stream.error = e) := by
  refine ⟨?_, fun hrec => ?_, fun hrec => ?_⟩
  · rw [get_frame]
    simp [hstart, hend, hA, hbe]
  · rw [if_pos hrec]
    rfl
  · rw [if_neg (by simp [hrec])]
    obtain ⟨e2, hse, himp⟩ := attempt_err hA
    injection hse with hse2
    rw [hse2]
    exact himp (by rw [← hse2]; exact hrec)

/-- C3: the running position starts at 0 with an empty consumption trace;
every terminating `get_frame` call preserves the invariant that the
position equals the sum of the durations of all frames consumed so far
(including frames skipped during interval seeking), never decreases the
position when the engine reports non-negative durations, and on success
advances the position to exactly the returned frame's position plus its
duration (so the frame's position field is the position at the frame's
start). -/
theorem c3_position_invariant :
    (∀ reader s e ho eng d, Decoder_new reader s e ho eng = Except.ok d →
        d.position_ms = 0 ∧ d.consumed = []) ∧
    (∀ fuel d r d', get_frame fuel d = some (r, d') →
        (d.position_ms = d.consumed.sum → d'.position_ms = d'.consumed.sum) ∧
        ((∀ k, 0 ≤ frame_duration ((d.engine k).header.duration)) →
            d.position_ms ≤ d'.position_ms) ∧
        (∀ f, r = Except.ok f → d'.position_ms = f.position + f.duration)) := by
  constructor
  · intro reader s e ho eng d h
    simp only [Decoder_new] at h
    split at h
    · cases h; exact ⟨rfl, rfl⟩
    · cases h
    · cases h; exact ⟨rfl, rfl⟩
  · intro fuel d r d' h
    obtain ⟨_, h2, h3, h4⟩ := (pos_facts fuel).1 d r d' h
    exact ⟨h2, h3, h4⟩

/-- C5 (amended): if an end bound is set and the current position already
exceeds it, and the start-bound guard does not require seeking (no start
bound, or the position has reached it), `get_frame` immediately returns
`EOF` with the state unchanged - so no engine call and no source read
happens.  (The unamended claim fails when a pending start bound lies above
the position, see the counterexample.) -/
theorem c5_end_bound_amended (fuel : Nat) (d : DecoderS) (t : Int)
    (hend : d.end_ms = some t) (hpos : t < d.position_ms)
    (hstart : startSeekNeeded d = false) :
    get_frame (fuel + 1) d = some (Except.error SimplemadError.EOF, d) := by
  rw [get_frame, if_neg (by simp [hstart]), if_pos (by simp [endReached, hend, hpos])]

/-- C6 (amended): with `decode_interval` bounds start = end = t, any Frame
a terminating call produces has position exactly t: seeking that lands
strictly past the bound yields zero frames via the end check, but because
the end check is strict, a seek landing exactly on the bound still lets
one boundary frame through (see the counterexample). -/
theorem c6_interval_amended (fuel : Nat) (d : DecoderS) (t : Int)
    (hst : d.start_ms = some t) (hen : d.end_ms = some t)
    (r : Except SimplemadError Frame) (d' : DecoderS)
    (h : get_frame fuel d = some (r, d'))
    (f : Frame) (hf : r = Except.ok f) :
    f.position = t :=
  (startEnd_eq_ok_position fuel).1 d t r d' hst hen h f hf

/-- C9: iteration terminates permanently after a fatal codec error (the
recorded error stays fatal, so every later `next` returns `None` on an
unchanged state), returns `None` on end-of-stream, and yields a
recoverable codec error as `Some (Err ...)` while leaving the next call
able to proceed. -/
theorem c9_iterator_contract :
    (∀ fuel fuel2 d e d',
        get_frame fuel d = some (Except.error (SimplemadError.Mad e), d') →
        error_is_recoverable e = false →
        iterNext fuel2 d' = some (Option.none, d')) ∧
    (∀ fuel d d', error_is_recoverable d.stream.error = true →
        get_frame fuel d = some (Except.error SimplemadError.EOF, d') →
        iterNext fuel d = some (Option.none, d')) ∧
    (∀ fuel d e d', error_is_recoverable d.stream.error = true →
        get_frame fuel d = some (Except.error (SimplemadError.Mad e), d') →
        error_is_recoverable e = true →
        iterNext fuel d = some (some (Except.error (SimplemadError.Mad e)), d') ∧
        error_is_recoverable d'.stream.error = true) := by
  refine ⟨?_, ?_, ?_⟩
  · intro fuel fuel2 d e d' hgf hfatal
    obtain ⟨_, _, herr⟩ := (err_facts fuel).1 d _ d' hgf e rfl
    have h1 : d'.stream.error = e := herr hfatal
    unfold iterNext
    rw [if_pos (by rw [h1]; exact hfatal)]
  · intro fuel d d' hrec hgf
    unfold iterNext
    rw [if_neg (by simp [hrec]), hgf]
  · intro fuel d e d' hrec hgf herec
    obtain ⟨_, hclear, _⟩ := (err_facts fuel).1 d _ d' hgf e rfl
    have h1 : d'.stream.error = MadError.none := hclear herec
    constructor
    · unfold iterNext
      rw [if_neg (by simp [hrec]), hgf]
    · rw [h1]
      decide

/-! Concrete fixtures for the witnesses and counterexamples. -/

/-- A concrete decoded header: stereo layer III, 44100 Hz, 128 kbit/s,
duration 10 ticks. -/
def wHeader : MadHeader :=
  { sampleRate := 44100, bitRate := 128000, layer := .layerIII, mode := .stereo
    duration := { seconds := 0, fraction := 10 } }

/-- A concrete PCM block: one channel with one raw sample. -/
def wPcm : MadPcm :=
  { sampleRate := 44100, channels := 1, length := 1, samples := [[8]] }

/-- A concrete engine response recording the given error. -/
def wResp (e : MadError) : EngineResp :=
  { error := e, header := wHeader, nextFrame := 0, pcm := wPcm }

/-- A concrete headers-only decode session over an exhausted source. -/
def wBase (eng : EngineOracle) : DecoderS :=
  { reader := [], buffer := [], headers_only := true,
    stream := { error := MadError.none, nextFrame := 0, bufLength := 0 },
    frameHeader := wHeader, pcm := wPcm,
    start_ms := Option.none, end_ms := Option.none, position_ms := 0,
    engine := eng, engineIdx := 0, consumed := [] }

/-- Witness for C10 at offset 0, index 0. -/
theorem c10_shift_in_bounds_witness :
    0 < unused_byte_count 32768 0 ∧ 0 + 0 < 32768 :=
  ⟨by decide, c10_shift_in_bounds 0 0 (by decide)⟩

/-- A refill scenario: buffer [1,2,3,4], two bytes consumed, one chunk of
two bytes left in the source, engine error `BufLen`. -/
def c4state : DecoderS :=
  { wBase (fun _ => wResp MadError.none) with
      buffer := [1, 2, 3, 4]
      reader := [Except.ok [9, 8]]
      stream := { error := MadError.bufLen, nextFrame := 2, bufLength := 4 } }

/-- Witness for C4 on the concrete refill scenario. -/
theorem c4_refill_buffer_spec_witness :
    (refill_buffer c4state).1 = Except.ok 2 ∧
    ((refill_buffer c4state).2).buffer.length = c4state.buffer.length ∧
    ((refill_buffer c4state).2).stream.nextFrame = 0 ∧
    ((refill_buffer c4state).2).stream.bufLength =
      unused_byte_count c4state.buffer.length c4state.stream.nextFrame + 2 := by
  have h : (refill_buffer c4state).1 = Except.ok 2 := by decide
  obtain ⟨h1, _, h3, h4, _, _⟩ := c4_refill_buffer_spec c4state 2 h
  exact ⟨h, h1, h3, h4⟩

/-- Session whose engine always reports buffer exhaustion. -/
def c1state : DecoderS := wBase (fun _ => wResp MadError.bufLen)

/-- The state after the failed decode attempt of `c1state`. -/
def c1state1 : DecoderS :=
  { c1state with
      stream := { error := MadError.bufLen, nextFrame := 0, bufLength := 0 }
      engineIdx := 1 }

/-- The state after the refill of `c1state1`. -/
def c1state3 : DecoderS := { c1state with engineIdx := 1 }

/-- Witness for C1: a `BufLen` attempt over an exhausted source ends the
session with `EOF`, not with `Mad BufLen`. -/
theorem c1_buflen_never_surfaced_witness :
    get_frame 1 c1state = some (Except.error SimplemadError.EOF, c1state3) :=
  (c1_buflen_never_surfaced.2 0 c1state c1state1 rfl rfl rfl).2.1 c1state3 rfl

/-- Session whose engine always reports the recoverable `LostSync`. -/
def c2state : DecoderS := wBase (fun _ => wResp MadError.lostSync)

/-- The state after the failed decode attempt of `c2state` (error already
cleared by `decode_header_only` because `LostSync` is recoverable). -/
def c2state1 : DecoderS := { c2state with engineIdx := 1 }

/-- Witness for C2 on the recoverable `LostSync`. -/
theorem c2_error_classification_witness :
    get_frame 1 c2state =
      some (Except.error (SimplemadError.Mad MadError.lostSync),
            if error_is_recoverable MadError.lostSync then clearStreamError c2state1
            else c2state1) ∧
    error_is_recoverable MadError.lostSync = true :=
  ⟨(c2_error_classification 0 c2state MadError.lostSync c2state1 rfl rfl rfl
      (by decide)).1,
   by decide⟩

/-- Session whose engine always decodes successfully. -/
def c3state : DecoderS := wBase (fun _ => wResp MadError.none)

/-- The frame the first call on `c3state` returns. -/
def c3frame : Frame :=
  { sample_rate := 44100, bit_rate := 128000, layer := .layerIII, mode := .stereo
    samples := [], duration := 10, position := 0 }

/-- The state after the first call on `c3state`. -/
def c3state2 : DecoderS :=
  { c3state with engineIdx := 1, position_ms := 10, consumed := [10] }

/-- Witness for C3 on one successful decode. -/
theorem c3_position_invariant_witness :
    c3state2.position_ms = c3frame.position + c3frame.duration ∧
    c3state2.position_ms = c3state2.consumed.sum := by
  have h : get_frame 1 c3state = some (Except.ok c3frame, c3state2) := by rfl
  obtain ⟨hinv, _, hok⟩ := c3_position_invariant.2 1 c3state _ _ h
  exact ⟨hok c3frame rfl, hinv (by decide)⟩

/-- An interval session with pending start bound 10, end bound 5, and
position 7: the position exceeds the end bound at the call. -/
def c5cstate : DecoderS :=
  { wBase (fun _ => wResp MadError.none) with
      start_ms := some 10, end_ms := some 5, position_ms := 7 }

/-- Counterexample for C5 as stated: the position (7) exceeds the end
bound (5) when `get_frame` is called, yet the start check fires first and
the engine is invoked (the call counter advances from 0 to 1) before the
call returns `EOF`. -/
theorem c5_end_bound_counterexample :
    c5cstate.end_ms = some 5 ∧ (5 : Int) < c5cstate.position_ms ∧
    (get_frame 4 c5cstate).map (fun p => p.1) =
      some (Except.error SimplemadError.EOF) ∧
    (get_frame 4 c5cstate).map (fun p => p.2.engineIdx) = some 1 :=
  ⟨rfl, by decide, by decide, by decide⟩

/-- A session with end bound 5 already exceeded and no start bound. -/
def c5wstate : DecoderS :=
  { wBase (fun _ => wResp MadError.none) with end_ms := some 5, position_ms := 7 }

/-- Witness for the amended C5. -/
theorem c5_end_bound_amended_witness :
    get_frame 1 c5wstate = some (Except.error SimplemadError.EOF, c5wstate) :=
  c5_end_bound_amended 0 c5wstate 5 rfl (by decide) rfl

/-- True when a decode result is a successful Frame. -/
def isOkFrame (o : Option ((Except SimplemadError Frame) × DecoderS)) : Bool :=
  match o with
  | some (Except.ok _, _) => true
  | _ => false

/-- A full run of `decode_interval` with start = end = 10 over an engine
whose frames last 10 ticks: seeking lands exactly on the bound. -/
def c6run : Bool :=
  match Decoder_decode_interval [] 10 10 (fun _ => wResp MadError.none) with
  | Except.ok d0 => isOkFrame (get_frame 5 d0)
  | Except.error _ => false

/-- Counterexample for C6 as stated: a `decode_interval` session with
start = end yields a successful in-range Frame when the seek lands exactly
on the bound, because the end check `position > end` is strict. -/
theorem c6_interval_counterexample : c6run = true := by decide

/-- An interval session with start = end = 10. -/
def c6wstate : DecoderS :=
  { wBase (fun _ => wResp MadError.none) with
      headers_only := false, start_ms := some 10, end_ms := some 10 }

/-- The boundary frame the session `c6wstate` produces. -/
def c6wframe : Frame :=
  { sample_rate := 44100, bit_rate := 128000, layer := .layerIII, mode := .stereo
    samples := [[1]], duration := 10, position := 10 }

/-- The state after the boundary frame of `c6wstate`. -/
def c6wstate2 : DecoderS :=
  { c6wstate with engineIdx := 2, position_ms := 20, consumed := [10, 10] }

/-- Witness for the amended C6: the produced boundary frame sits exactly
at the shared bound. -/
theorem c6_interval_amended_witness : c6wframe.position = 10 :=
  c6_interval_amended 5 c6wstate 10 rfl rfl (Except.ok c6wframe) c6wstate2 rfl
    c6wframe rfl

/-- Session whose engine always reports the fatal `BufPtr`. -/
def c9state : DecoderS := wBase (fun _ => wResp MadError.bufPtr)

/-- The state after the fatal decode attempt of `c9state`. -/
def c9state2 : DecoderS :=
  { c9state with
      stream := { error := MadError.bufPtr, nextFrame := 0, bufLength := 0 }
      engineIdx := 1 }

/-- Witness for C9: after the fatal `BufPtr` error, `next` returns `None`
on the unchanged state. -/
theorem c9_iterator_contract_witness :
    iterNext 1 c9state2 = some (Option.none, c9state2) :=
  c9_iterator_contract.1 1 1 c9state MadError.bufPtr c9state2 rfl (by decide)
